import Mathlib

/-!
Verification development for excerpts of the Kibana repository: the ES|QL
autocomplete factories, the auditd authorizations query builder, the
entity-definition zod schemas, and the Delete exception list OpenAPI
document. Each TypeScript value is shallowly embedded as an executable
Lean definition; JavaScript strings are modelled through their character
lists.
-/

namespace Kibana

/-! ## JavaScript string helpers

JavaScript `s.startsWith(c)` and `s.endsWith(c)` for a one-character
needle `c` test the first and the last character; they are modelled on
the character list of the string. -/

def jsStartsWith1 (s : String) (c : Char) : Bool :=
  s.data.head? = some c

def jsEndsWith1 (s : String) (c : Char) : Bool :=
  s.data.getLast? = some c

/-! ## getQuotedText (esql autocomplete factories)

Source: `getQuotedText(text)` returns `text` when it already starts and
ends with a double quote, and otherwise wraps it in double quotes. -/

def getQuotedText (text : String) : String :=
  if jsStartsWith1 text '"' && jsEndsWith1 text '"' then text
  else "\"" ++ text ++ "\""

theorem getQuotedText_starts (t : String) :
    jsStartsWith1 (getQuotedText t) '"' = true := by
  unfold getQuotedText
  split
  · rename_i h
    exact (Bool.and_eq_true ..).mp h |>.1
  · show jsStartsWith1 ("\"" ++ t ++ "\"") '"' = true
    unfold jsStartsWith1
    rw [String.data_append, String.data_append]
    simp [List.head?_append]

theorem getQuotedText_ends (t : String) :
    jsEndsWith1 (getQuotedText t) '"' = true := by
  unfold getQuotedText
  split
  · rename_i h
    exact (Bool.and_eq_true ..).mp h |>.2
  · show jsEndsWith1 ("\"" ++ t ++ "\"") '"' = true
    unfold jsEndsWith1
    rw [String.data_append]
    have : ("\"" ++ t).data ++ ("\"" : String).data
        = ("\"" ++ t).data ++ ['"'] := rfl
    rw [this, List.getLast?_concat]
    decide

/-! ## durationSchema (entity definition schemas)

Source: a zod string schema validated by the regex `^\d+[m|d|s|h]$` and
then transformed by re-matching `/(\d+)([m|s|h|d])/`, parsing the digits,
building a moment duration, and overriding its `toJSON` to return the
original string. Both regex character classes contain the five characters
m, |, d, s, h (the pipe is inside the brackets, hence literal). -/

def unitClass (c : Char) : Bool :=
  c == 'm' || c == '|' || c == 'd' || c == 's' || c == 'h'

/-- Acceptance by the anchored validation regex `^\d+[m|d|s|h]$`:
the string is a nonempty run of digits followed by one class character. -/
def durationRegexAccept (s : List Char) : Bool :=
  match s.reverse with
  | [] => false
  | c :: rest => unitClass c && !rest.isEmpty && rest.all Char.isDigit

/-- Single left-to-right pass carrying the digit run that ends just
before the current position (in reverse). A digit extends the run; a
class character preceded by a nonempty run is the first match (the class
has no digit, so regex backtracking inside a run cannot produce an
earlier one); any other character resets the run. -/
def findMatchAux : List Char → List Char → Option (List Char × Char)
  | _, [] => none
  | runRev, c :: rest =>
    if c.isDigit then findMatchAux (c :: runRev) rest
    else if unitClass c && !runRev.isEmpty then some (runRev.reverse, c)
    else findMatchAux [] rest

/-- The unanchored search `/(\d+)([m|s|h|d])/`: the first maximal digit
run immediately followed by a class character, returned as the captured
digits and the class character. -/
def findMatch (s : List Char) : Option (List Char × Char) :=
  findMatchAux [] s

/-- JavaScript `parseInt` on a digit string, modelled on base-10 digits. -/
def parseIntDigits (l : List Char) : Nat :=
  l.foldl (fun acc c => acc * 10 + (c.toNat - '0'.toNat)) 0

/-- The value produced by the transform: the parsed number, the captured
unit character, and the `toJSON` override, which the source sets to a
closure returning the original input string. -/
structure MomentDurationVal where
  value : Nat
  unit : Char
  toJSON : String
deriving DecidableEq, Repr

/-- durationSchema as a parser: `none` models both a regex validation
failure and the `throw new Error` branch of the transform. -/
def durationSchemaParse (val : String) : Option MomentDurationVal :=
  if durationRegexAccept val.data then
    match findMatch val.data with
    | some (digits, u) => some ⟨parseIntDigits digits, u, val⟩
    | none => none
  else none

theorem unitClass_not_digit {c : Char} (h : unitClass c = true) :
    c.isDigit = false := by
  unfold unitClass at h
  simp only [Bool.or_eq_true, beq_iff_eq] at h
  rcases h with ((((h | h) | h) | h) | h) <;> subst h <;> decide

theorem findMatchAux_isSome_of_digits (c : Char) (hc : unitClass c = true) :
    ∀ (ds runRev : List Char), ds.all Char.isDigit = true →
      (ds.isEmpty && runRev.isEmpty) = false →
      (findMatchAux runRev (ds ++ [c])).isSome = true
  | [], runRev, _, hne => by
    simp only [List.isEmpty_nil, Bool.true_and] at hne
    simp [findMatchAux, unitClass_not_digit hc, hc, hne]
  | d :: ds, runRev, hall, _ => by
    have hd : d.isDigit = true := (List.all_eq_true.mp hall) d (by simp)
    have hds : ds.all Char.isDigit = true := by
      rw [List.all_eq_true]
      intro x hx
      exact (List.all_eq_true.mp hall) x (by simp [hx])
    simp only [List.cons_append, findMatchAux, hd, if_true]
    exact findMatchAux_isSome_of_digits c hc ds (d :: runRev) hds (by simp)

theorem durationRegexAccept_shape {s : List Char}
    (h : durationRegexAccept s = true) :
    ∃ d ds c, s = (d :: ds) ++ [c] ∧ (d :: ds).all Char.isDigit = true ∧
      unitClass c = true := by
  unfold durationRegexAccept at h
  cases hrev : s.reverse with
  | nil => rw [hrev] at h; exact absurd h (by simp)
  | cons c rest =>
    rw [hrev] at h
    simp only [Bool.and_eq_true, Bool.not_eq_true'] at h
    obtain ⟨⟨hc, hne⟩, hall⟩ := h
    have hs : s = rest.reverse ++ [c] := by
      have := congrArg List.reverse hrev
      simpa using this
    cases hrr : rest.reverse with
    | nil =>
      exfalso
      have : rest = [] := by
        have := congrArg List.reverse hrr
        simpa using this
      rw [this] at hne
      simp at hne
    | cons d ds =>
      refine ⟨d, ds, c, ?_, ?_, hc⟩
      · rw [hs, hrr]
      · rw [List.all_eq_true] at hall ⊢
        intro x hx
        apply hall
        have : x ∈ rest.reverse := by rw [hrr]; exact hx
        simpa using this

theorem findMatch_isSome_of_accept {s : List Char}
    (h : durationRegexAccept s = true) : (findMatch s).isSome = true := by
  obtain ⟨d, ds, c, hs, hall, hc⟩ := durationRegexAccept_shape h
  subst hs
  exact findMatchAux_isSome_of_digits c hc (d :: ds) [] hall (by simp)

/-! ## metadataSchema (entity definition schemas)

Source: a zod union of an object branch (source, optional destination,
optional limit defaulting to 1000) transformed to fill the defaults, and
a bare-string branch mapped to source = destination = the string with
limit 1000; a final superRefine adds an issue when limit < 1, when
source is empty, or when destination is empty. JavaScript numbers are
modelled as rationals. -/

structure Metadata where
  source : String
  destination : String
  limit : Rat
deriving DecidableEq, Repr

/-- The two shapes of input the union accepts: an object literal or a
bare string. -/
inductive MetadataInput where
  | obj (source : String) (destination : Option String) (limit : Option Rat)
  | str (value : String)
deriving DecidableEq, Repr

/-- The trailing superRefine: any added issue makes the parse fail. -/
def metadataSuperRefine (m : Metadata) : Option Metadata :=
  if m.limit < 1 ∨ m.source = "" ∨ m.destination = "" then none else some m

def metadataSchemaParse : MetadataInput → Option Metadata
  | .obj src dst lim => metadataSuperRefine ⟨src, dst.getD src, lim.getD 1000⟩
  | .str v => metadataSuperRefine ⟨v, v, 1000⟩

/-! ## buildQuery (auditd authorizations query builder)

Source: `buildQuery(options)` assembles an Elasticsearch DSL query from
the request options: the caller's filter query clauses followed by fixed
term/terms clauses and a range clause on the configured timestamp field,
a cardinality aggregation, and a `group_by_users` composite aggregation
of size `limit + 1`; when `cursor` is truthy the result is the same query
with `composite.after = { user_uid: cursor }` deep-merged in. Timestamps
are modelled as integers; the opaque JSON filter query as a string. -/

def FilterQuery := String
deriving instance DecidableEq, Repr for FilterQuery

/-- One clause of the `bool.filter` array. -/
inductive FilterClause where
  | raw (q : FilterQuery)
  | term (field value : String)
  | terms (field : String) (values : List String)
  | range (field : String) (gte lte : Int)
deriving DecidableEq, Repr

structure CompositeAgg where
  size : Int
  sourcesUserUidField : String
  after : Option String
deriving DecidableEq, Repr

structure TopHitsAgg where
  size : Nat
  sourceFields : List String
  sortField : String
  sortOrder : String
deriving DecidableEq, Repr

structure GroupByUsersAgg where
  composite : CompositeAgg
  failuresFilterField : String
  failuresFilterValue : String
  successesFilterField : String
  successesFilterValue : String
  authorization : TopHitsAgg
deriving DecidableEq, Repr

structure AggregationsDsl where
  userCountCardinalityField : String
  group_by_users : GroupByUsersAgg
deriving DecidableEq, Repr

structure QueryBodyDsl where
  aggregations : AggregationsDsl
  boolFilter : List FilterClause
deriving DecidableEq, Repr

structure DslQuery where
  allowNoIndices : Bool
  index : String
  ignoreUnavailable : Bool
  body : QueryBodyDsl
  size : Nat
  track_total_hits : Bool
deriving DecidableEq, Repr

structure SourceConfigurationFields where
  timestamp : String
deriving DecidableEq, Repr

structure SourceConfiguration where
  fields : SourceConfigurationFields
  auditbeatAlias : String
deriving DecidableEq, Repr

/-- The timerange of the request; `from` and `to` are Lean keywords, so
the fields are named `from_` and `to_`. -/
structure TimerangeInput where
  to_ : Int
  from_ : Int
deriving DecidableEq, Repr

structure PaginationInput where
  limit : Int
  cursor : Option String
deriving DecidableEq, Repr

structure AuthorizationsRequestOptions where
  sourceConfiguration : SourceConfiguration
  timerange : TimerangeInput
  pagination : PaginationInput
  filterQuery : Option FilterQuery
  fields : List String
deriving DecidableEq, Repr

def auditdMap : List (String × String) :=
  [("latest", "@timestamp"), ("from", "source.ip"),
   ("to.id", "host.id"), ("to.name", "host.name")]

/-- Modelled from the spec: `createQueryFilterClauses` lives in
`utils/build_query`, outside the excerpt; the spec describes the builders
as query-filter assemblers, so it is modelled as wrapping the caller's
filter query into a single clause when one is present. -/
def createQueryFilterClauses : Option FilterQuery → List FilterClause
  | some q => [.raw q]
  | none => []

/-- Modelled from the spec: `reduceFields` lives in
`utils/build_query/reduce_fields`, outside the excerpt; modelled as
mapping each requested field through the field map, keeping the mapped
names. Only the `top_hits._source` list depends on it. -/
def reduceFields (fields : List String) (m : List (String × String)) :
    List String :=
  fields.filterMap (fun f => m.lookup f)

/-- JavaScript truthiness of the optional cursor string. -/
def cursorTruthy : Option String → Bool
  | some s => s ≠ ""
  | none => false

def buildQuery (options : AuthorizationsRequestOptions) : DslQuery :=
  let esFields := reduceFields options.fields auditdMap
  let filter : List FilterClause :=
    createQueryFilterClauses options.filterQuery ++
      [.term "event.category" "user-login",
       .term "process.exe" "/usr/sbin/sshd",
       .terms "event.type" ["user_login", "user_start"],
       .range options.sourceConfiguration.fields.timestamp
         options.timerange.from_ options.timerange.to_]
  let dslQuery : DslQuery :=
    { allowNoIndices := true
      index := options.sourceConfiguration.auditbeatAlias
      ignoreUnavailable := true
      body :=
        { aggregations :=
            { userCountCardinalityField := "auditd.data.acct"
              group_by_users :=
                { composite :=
                    { size := options.pagination.limit + 1
                      sourcesUserUidField := "auditd.data.acct"
                      after := none }
                  failuresFilterField := "auditd.result"
                  failuresFilterValue := "fail"
                  successesFilterField := "auditd.result"
                  successesFilterValue := "success"
                  authorization :=
                    { size := 1
                      sourceFields := esFields
                      sortField := "@timestamp"
                      sortOrder := "desc" } } }
          boolFilter := filter }
      size := 0
      track_total_hits := false }
  match options.pagination.cursor with
  | some c =>
    if c ≠ "" then
      { dslQuery with
        body :=
          { dslQuery.body with
            aggregations :=
              { dslQuery.body.aggregations with
                group_by_users :=
                  { dslQuery.body.aggregations.group_by_users with
                    composite :=
                      { dslQuery.body.aggregations.group_by_users.composite
                        with after := some c } } } } }
    else dslQuery
  | none => dslQuery

/-- The same options with the cursor removed. -/
def clearCursor (o : AuthorizationsRequestOptions) :
    AuthorizationsRequestOptions :=
  { o with pagination := { o.pagination with cursor := none } }

/-- Setting only the `composite.after` key of an assembled query, as the
lodash deep merge of `{ body: { aggregations: { group_by_users: {
composite: { after: { user_uid: cursor } } } } } }` does on this shape. -/
def setCompositeAfter (q : DslQuery) (a : Option String) : DslQuery :=
  { q with
    body :=
      { q.body with
        aggregations :=
          { q.body.aggregations with
            group_by_users :=
              { q.body.aggregations.group_by_users with
                composite :=
                  { q.body.aggregations.group_by_users.composite with
                    after := a } } } } }

/-- A concrete request options value used by the closed witnesses. -/
def exOptions : AuthorizationsRequestOptions :=
  { sourceConfiguration :=
      { fields := { timestamp := "@timestamp" }
        auditbeatAlias := "auditbeat-*" }
    timerange := { to_ := 1700000100, from_ := 1700000000 }
    pagination := { limit := 10, cursor := some "u1" }
    filterQuery := some "match_all"
    fields := ["latest", "from"] }

/-! ## Suggestion factories (esql autocomplete)

The suggestion item shape used by the factory helpers; only the fields
the excerpt actually sets are modelled. `commandId` holds the id of the
attached editor command when one is attached. -/

structure SuggestionRawDefinition where
  label : String
  text : String
  asSnippet : Option Bool
  kind : String
  detail : String
  documentation : Option String
  sortText : Option String
  commandId : Option String
deriving DecidableEq, Repr

structure FunctionSignature where
  returnType : String
deriving DecidableEq, Repr

structure FunctionDefinition where
  name : String
  type : String
  description : String
  supportedCommands : List String
  supportedOptions : Option (List String)
  signatures : List FunctionSignature
  examples : List String
deriving DecidableEq, Repr

/-- Modelled from the spec: `getFunctionSignatures` (definitions/helpers)
is outside the excerpt; the factory only uses the first rendered
declaration as a label, modelled here as the function name. -/
def functionDeclarationLabel (fn : FunctionDefinition) : String :=
  fn.name

/-- Modelled from the spec: `buildFunctionDocumentation`
(documentation_util) is outside the excerpt; modelled as joining the
declaration with the examples. -/
def buildFunctionDocumentation (decl : String) (examples : List String) :
    String :=
  (decl :: examples).foldl (fun acc s => acc ++ s ++ "\n") ""

def getSuggestionFunctionDefinition (fn : FunctionDefinition) :
    SuggestionRawDefinition :=
  { label := functionDeclarationLabel fn
    text := fn.name.toUpper ++ "($0)"
    asSnippet := some true
    kind := "Function"
    detail := fn.description
    documentation :=
      some (buildFunctionDocumentation (functionDeclarationLabel fn)
        fn.examples)
    sortText := some (if fn.type = "agg" then "1A" else "C")
    commandId := some "editor.action.triggerSuggest" }

/-! `localeCompare` ascending ordering, modelled as the lexicographic
order on the character lists of the names. -/

def lexLe : List Char → List Char → Bool
  | [], _ => true
  | _ :: _, [] => false
  | a :: as, b :: bs =>
    if a < b then true else if b < a then false else lexLe as bs

theorem lexLe_trans :
    ∀ {a b c : List Char}, lexLe a b = true → lexLe b c = true →
      lexLe a c = true
  | [], _, _, _, _ => rfl
  | _ :: _, [], _, h, _ => by simp [lexLe] at h
  | _ :: _, _ :: _, [], _, h => by simp [lexLe] at h
  | a :: as, b :: bs, c :: cs, hab, hbc => by
    simp only [lexLe] at hab hbc ⊢
    rcases lt_trichotomy a b with h1 | h1 | h1
    · rcases lt_trichotomy b c with h2 | h2 | h2
      · simp [lt_trans h1 h2]
      · subst h2; simp [h1]
      · rw [if_neg (lt_asymm h2), if_pos h2] at hbc
        exact absurd hbc (by simp)
    · subst h1
      rcases lt_trichotomy a c with h3 | h3 | h3
      · simp [h3]
      · subst h3
        simp only [lt_irrefl, if_false] at hab hbc ⊢
        exact lexLe_trans hab hbc
      · rw [if_neg (lt_asymm h3), if_pos h3] at hbc
        exact absurd hbc (by simp)
    · rw [if_neg (lt_asymm h1), if_pos h1] at hab
      exact absurd hab (by simp)

theorem lexLe_total :
    ∀ (a b : List Char), (lexLe a b || lexLe b a) = true
  | [], _ => by simp [lexLe]
  | _ :: _, [] => by simp [lexLe]
  | a :: as, b :: bs => by
    simp only [lexLe]
    rcases lt_trichotomy a b with h | h | h
    · simp [h]
    · subst h
      simp only [lt_irrefl, if_false]
      exact lexLe_total as bs
    · simp [h, lt_asymm h]

/-- The name ordering passed to `Array.prototype.sort` via
`localeCompare`. -/
def fnNameLe (a b : FunctionDefinition) : Bool :=
  lexLe a.name.data b.name.data

theorem fnNameLe_trans (a b c : FunctionDefinition)
    (h1 : fnNameLe a b = true) (h2 : fnNameLe b c = true) :
    fnNameLe a c = true :=
  lexLe_trans h1 h2

theorem fnNameLe_total (a b : FunctionDefinition) :
    (fnNameLe a b || fnNameLe b a) = true :=
  lexLe_total a.name.data b.name.data

/-- The filter test of `getCompatibleFunctionDefinition` as the source
writes it: `option` is tested for JavaScript truthiness (an empty string
falls back to the command test), `supportedOptions?.includes` treats a
missing list as not including anything, and ignored names are dropped. -/
def fnSupportedTest (command : String) (option : Option String)
    (ignored : List String) (f : FunctionDefinition) : Bool :=
  (match option with
   | some o =>
     if o ≠ "" then (f.supportedOptions.getD []).contains o
     else f.supportedCommands.contains command
   | none => f.supportedCommands.contains command)
  && !(ignored.contains f.name)

/-- The `returnTypes` keep test: kept when the first element of
`returnTypes` is the string `any`, or some signature's return type is in
`returnTypes`. -/
def returnTypesTest (rts : List String) (f : FunctionDefinition) : Bool :=
  f.signatures.any (fun sig => rts.head? == some "any" || rts.contains sig.returnType)

/-- `getCompatibleFunctionDefinition`, parameterised by the concatenated
`allFunctions` list (the aggregation, eval and grouping definition lists
live outside the excerpt). -/
def getCompatibleFunctionDefinition (allFunctions : List FunctionDefinition)
    (command : String) (option : Option String)
    (returnTypes : Option (List String)) (ignored : List String) :
    List SuggestionRawDefinition :=
  let fnSupportedByCommand :=
    (allFunctions.filter (fnSupportedTest command option ignored)).mergeSort
      fnNameLe
  match returnTypes with
  | none => fnSupportedByCommand.map getSuggestionFunctionDefinition
  | some rts =>
    (fnSupportedByCommand.filter (returnTypesTest rts)).map
      getSuggestionFunctionDefinition

/-- The selection test exactly as the claim words it: whenever an option
value is present at all — even the empty string — the function must
support that option. Written from the claim for comparison with the
source's truthiness test. -/
def claimSelectionTest (command : String) (option : Option String)
    (ignored : List String) (f : FunctionDefinition) : Bool :=
  (match option with
   | some o => (f.supportedOptions.getD []).contains o
   | none => f.supportedCommands.contains command)
  && !(ignored.contains f.name)

/-- The combined keep test actually applied by the source. -/
def codeKeepTest (command : String) (option : Option String)
    (returnTypes : Option (List String)) (ignored : List String)
    (f : FunctionDefinition) : Bool :=
  fnSupportedTest command option ignored f
    && (match returnTypes with
        | none => true
        | some rts => returnTypesTest rts f)

/-- A concrete aggregation function used by the closed counterexample and
witnesses: it supports the `stats` command and no option. -/
def exFn : FunctionDefinition :=
  { name := "avg"
    type := "agg"
    description := "Returns the average of a numeric field."
    supportedCommands := ["stats"]
    supportedOptions := some []
    signatures := [{ returnType := "number" }]
    examples := [] }

/-! ## getSafeInsertText and buildFieldsDefinitions (esql autocomplete) -/

/-- Modelled from the spec: `shouldBeQuotedText` (shared/helpers) is
outside the excerpt; modelled as testing for any character outside the
safe identifier set, with a dash allowed when `dashSupported` is set. -/
def shouldBeQuotedText (text : String) (dashSupported : Bool) : Bool :=
  text.data.any (fun c =>
    !(c.isAlphanum || c == '_' || c == '.' || c == '@'
      || (dashSupported && c == '-')))

def getSafeInsertText (text : String) (dashSupported : Bool) : String :=
  if shouldBeQuotedText text dashSupported then
    "`" ++ (text.replace "`" "``") ++ "`"
  else text

/-- The i18n default message used as the detail of a field suggestion:
the host framework's `i18n.translate` resolves to the default message
in the default locale. -/
def fieldDefinitionDetail : String := "Field specified by the input table"

def buildFieldsDefinitions (fields : List String) :
    List SuggestionRawDefinition :=
  fields.map (fun label =>
    { label := label
      text := getSafeInsertText label false
      asSnippet := none
      kind := "Variable"
      detail := fieldDefinitionDetail
      documentation := none
      sortText := some "D"
      commandId := none })

/-! ## Delete exception list OpenAPI document

The declarative YAML contract, embedded verbatim: the three query
parameters of the DELETE operation and its declared responses. Schema
references into the shared model files are embedded by referenced
component name. -/

inductive SchemaName where
  | ExceptionListId
  | ExceptionListHumanId
  | ExceptionNamespaceType
  | ExceptionList
  | PlatformErrorResponse
  | SiemErrorResponse
deriving DecidableEq, Repr

/-- A response content schema: a single reference or a `oneOf` of
references. -/
inductive ResponseSchema where
  | ref (r : SchemaName)
  | oneOf (rs : List SchemaName)
deriving DecidableEq, Repr

/-- A declared query parameter; `in` is a Lean keyword, so the location
field is named `inLocation`. -/
structure QueryParameter where
  name : String
  inLocation : String
  required : Bool
  description : Option String
  schemaRef : SchemaName
  schemaDefault : Option String
deriving DecidableEq, Repr

structure ApiResponse where
  status : Nat
  description : String
  contentType : String
  schema : ResponseSchema
deriving DecidableEq, Repr

def deleteExceptionListParameters : List QueryParameter :=
  [{ name := "id"
     inLocation := "query"
     required := false
     description := some "Either `id` or `list_id` must be specified"
     schemaRef := .ExceptionListId
     schemaDefault := none },
   { name := "list_id"
     inLocation := "query"
     required := false
     description := some "Either `id` or `list_id` must be specified"
     schemaRef := .ExceptionListHumanId
     schemaDefault := none },
   { name := "namespace_type"
     inLocation := "query"
     required := false
     description := none
     schemaRef := .ExceptionNamespaceType
     schemaDefault := some "single" }]

def deleteExceptionListResponses : List ApiResponse :=
  [{ status := 200
     description := "Successful response"
     contentType := "application/json"
     schema := .ref .ExceptionList },
   { status := 400
     description := "Invalid input data response"
     contentType := "application/json"
     schema := .oneOf [.PlatformErrorResponse, .SiemErrorResponse] },
   { status := 401
     description := "Unsuccessful authentication response"
     contentType := "application/json"
     schema := .ref .PlatformErrorResponse },
   { status := 403
     description := "Not enough privileges response"
     contentType := "application/json"
     schema := .ref .PlatformErrorResponse },
   { status := 404
     description := "Exception list not found response"
     contentType := "application/json"
     schema := .ref .SiemErrorResponse },
   { status := 500
     description := "Internal server error response"
     contentType := "application/json"
     schema := .ref .SiemErrorResponse }]

/-- The component names a response schema refers to. -/
def responseSchemaRefs : ResponseSchema → List SchemaName
  | .ref r => [r]
  | .oneOf rs => rs

/-- A JSON error-response schema: nonempty and drawn entirely from the
two shared error-response components. -/
def isErrorResponseSchema (s : ResponseSchema) : Bool :=
  !(responseSchemaRefs s).isEmpty
    && (responseSchemaRefs s).all (fun r =>
      r == .PlatformErrorResponse || r == .SiemErrorResponse)

/-! ## Claim theorems -/

/-- C1: in the Delete exception list OpenAPI contract, each of the three
query parameters `id`, `list_id` and `namespace_type` is individually
declared optional (`required: false`), the descriptions of `id` and
`list_id` both state that either `id` or `list_id` must be specified,
and `namespace_type` is declared with default value `single`. -/
theorem deleteExceptionList_params_optional :
    deleteExceptionListParameters.map QueryParameter.name
      = ["id", "list_id", "namespace_type"] ∧
    deleteExceptionListParameters.all (fun p => !p.required) = true ∧
    (deleteExceptionListParameters.find? (fun p => p.name == "id")).map
        QueryParameter.description
      = some (some "Either `id` or `list_id` must be specified") ∧
    (deleteExceptionListParameters.find? (fun p => p.name == "list_id")).map
        QueryParameter.description
      = some (some "Either `id` or `list_id` must be specified") ∧
    (deleteExceptionListParameters.find?
        (fun p => p.name == "namespace_type")).map
        QueryParameter.schemaDefault
      = some (some "single") := by
  decide

/-- C2: the contract declares exactly the status codes 200, 400, 401,
403, 404 and 500; 200 returns an ExceptionList body and each of the
others returns a JSON error-response schema drawn from
PlatformErrorResponse and SiemErrorResponse. -/
theorem deleteExceptionList_responses_exact :
    deleteExceptionListResponses.map ApiResponse.status
      = [200, 400, 401, 403, 404, 500] ∧
    (deleteExceptionListResponses.find? (fun r => r.status == 200)).map
        ApiResponse.schema
      = some (.ref .ExceptionList) ∧
    deleteExceptionListResponses.all (fun r =>
        r.status == 200
          || (r.contentType == "application/json"
              && isErrorResponseSchema r.schema)) = true := by
  decide

/-- C3: every input string that passes durationSchema's validation regex
also matches the re-match inside the transform, so the branch that
throws `Unable to parse duration` is unreachable and the transform is
total on all regex-accepted inputs. -/
theorem durationSchema_transform_total (val : String)
    (h : durationRegexAccept val.data = true) :
    findMatch val.data ≠ none ∧ durationSchemaParse val ≠ none := by
  have hm := findMatch_isSome_of_accept h
  refine ⟨?_, ?_⟩
  · intro hn
    rw [hn] at hm
    exact absurd hm (by simp)
  · unfold durationSchemaParse
    rw [if_pos h]
    cases hfm : findMatch val.data with
    | none =>
      rw [hfm] at hm
      exact absurd hm (by simp)
    | some p =>
      obtain ⟨digits, u⟩ := p
      simp

theorem durationSchema_transform_total_witness :
    durationRegexAccept ("30m").data = true ∧
      findMatch ("30m").data ≠ none ∧ durationSchemaParse "30m" ≠ none :=
  ⟨by decide, (durationSchema_transform_total "30m" (by decide)).1,
    (durationSchema_transform_total "30m" (by decide)).2⟩

/-- C4: metadataSchema accepts an object input exactly when its resolved
limit is at least 1 (so limit 1 is accepted, despite the issue message
reading `limit should be greater than 1`) and the resolved source and
destination are nonempty; a bare string `s` parses to source = s,
destination = s, limit = 1000, rejected exactly when `s` is empty. -/
theorem metadataSchema_accepts_iff (src : String) (dst : Option String)
    (lim : Option Rat) (v : String) :
    ((metadataSchemaParse (.obj src dst lim)).isSome = true ↔
      (1 ≤ lim.getD 1000 ∧ src ≠ "" ∧ dst.getD src ≠ "")) ∧
    metadataSchemaParse (.str v)
      = if v = "" then none else some ⟨v, v, 1000⟩ := by
  constructor
  · show (metadataSuperRefine ⟨src, dst.getD src, lim.getD 1000⟩).isSome
        = true ↔ _
    unfold metadataSuperRefine
    split
    · rename_i h
      simp only [Option.isSome_none, Bool.false_eq_true, false_iff]
      rintro ⟨h1, h2, h3⟩
      rcases h with h | h | h
      · exact absurd h1 (not_le.mpr h)
      · exact h2 h
      · exact h3 h
    · rename_i h
      push_neg at h
      simp only [Option.isSome_some, true_iff]
      exact ⟨h.1, h.2.1, h.2.2⟩
  · show metadataSuperRefine ⟨v, v, 1000⟩ = _
    unfold metadataSuperRefine
    by_cases hv : v = ""
    · subst hv
      norm_num
    · have hcond : ¬((1000 : Rat) < 1 ∨ v = "" ∨ v = "") := by
        rintro (h | h | h)
        · norm_num at h
        · exact hv h
        · exact hv h
      rw [if_neg hcond, if_neg hv]

/-- C5: for every request options value, the bool filter of the built
query is the clauses produced from the filter query followed by the
fixed term on event.category, the fixed term on process.exe, the fixed
terms on event.type, and a range on the configured timestamp field with
gte = from and lte = to; and the group_by_users composite size is
pagination.limit + 1. -/
theorem buildQuery_filter_and_size (o : AuthorizationsRequestOptions) :
    (buildQuery o).body.boolFilter
      = createQueryFilterClauses o.filterQuery ++
        [.term "event.category" "user-login",
         .term "process.exe" "/usr/sbin/sshd",
         .terms "event.type" ["user_login", "user_start"],
         .range o.sourceConfiguration.fields.timestamp
           o.timerange.from_ o.timerange.to_] ∧
    (buildQuery o).body.aggregations.group_by_users.composite.size
      = o.pagination.limit + 1 := by
  cases hc : o.pagination.cursor with
  | none =>
    unfold buildQuery
    simp only [hc]
    refine ⟨?_, ?_⟩ <;> first | rfl | trivial
  | some c =>
    unfold buildQuery
    simp only [hc]
    by_cases h : c ≠ ""
    · rw [if_pos h]
      exact ⟨rfl, rfl⟩
    · rw [if_neg h]
      exact ⟨rfl, rfl⟩

/-- C6: for every request options value with a truthy cursor, the built
query is exactly the query built for the same options without a cursor
with only composite.after set to the cursor; every other field is
unchanged. -/
theorem buildQuery_cursor_only_adds_after (o : AuthorizationsRequestOptions)
    (c : String) (h1 : o.pagination.cursor = some c) (h2 : c ≠ "") :
    buildQuery o = setCompositeAfter (buildQuery (clearCursor o)) (some c) := by
  unfold buildQuery clearCursor setCompositeAfter
  simp only [h1]
  rw [if_pos h2]

theorem buildQuery_cursor_only_adds_after_witness :
    buildQuery exOptions
      = setCompositeAfter (buildQuery (clearCursor exOptions)) (some "u1") :=
  buildQuery_cursor_only_adds_after exOptions "u1" rfl (by decide)

/-- C7 counterexample: with `option` provided as the empty string, the
source falls back to the command test (JavaScript truthiness), so a
function supporting the command is returned even though it does not
support the empty option; the claim's reading (any provided option is
tested) would return nothing. -/
theorem getCompatibleFunctionDefinition_claim_counterexample :
    getCompatibleFunctionDefinition [exFn] "stats" (some "") none []
      ≠ ([exFn].filter (claimSelectionTest "stats" (some "") [])).map
          getSuggestionFunctionDefinition := by
  have hf : [exFn].filter (fnSupportedTest "stats" (some "") []) = [exFn] := by
    decide
  have hsort :
      ([exFn].filter (fnSupportedTest "stats" (some "") [])).mergeSort fnNameLe
        = [exFn] := by
    rw [hf]
    exact List.mergeSort_singleton exFn
  have hl : getCompatibleFunctionDefinition [exFn] "stats" (some "") none []
      = [getSuggestionFunctionDefinition exFn] := by
    unfold getCompatibleFunctionDefinition
    rw [hsort]
    rfl
  have hr : [exFn].filter (claimSelectionTest "stats" (some "") []) = [] := by
    decide
  rw [hl, hr]
  simp

/-- C7 amended: for every function list, command, option, returnTypes
and ignored list, the result maps exactly the functions that pass the
source's selection test — supporting the option when one is provided and
nonempty, otherwise the command — minus ignored names and, when
returnTypes is provided, those without a matching signature (first
element `any` accepts all); the kept functions are ordered ascending by
name. -/
theorem getCompatibleFunctionDefinition_amended
    (fns : List FunctionDefinition) (command : String)
    (option : Option String) (returnTypes : Option (List String))
    (ignored : List String) :
    ∃ kept : List FunctionDefinition,
      getCompatibleFunctionDefinition fns command option returnTypes ignored
        = kept.map getSuggestionFunctionDefinition ∧
      kept.Pairwise (fun a b => fnNameLe a b = true) ∧
      kept.Perm (fns.filter (codeKeepTest command option returnTypes ignored)) := by
  cases returnTypes with
  | none =>
    refine ⟨(fns.filter (fnSupportedTest command option ignored)).mergeSort
      fnNameLe, rfl, ?_, ?_⟩
    · exact List.sorted_mergeSort fnNameLe_trans fnNameLe_total _
    · refine (List.mergeSort_perm _ _).trans ?_
      have he : fns.filter (fnSupportedTest command option ignored)
          = fns.filter (codeKeepTest command option none ignored) :=
        List.filter_congr (fun x _ => by simp [codeKeepTest])
      rw [he]
  | some rts =>
    refine ⟨((fns.filter (fnSupportedTest command option ignored)).mergeSort
      fnNameLe).filter (returnTypesTest rts), rfl, ?_, ?_⟩
    · exact List.Pairwise.sublist (List.filter_sublist _)
        (List.sorted_mergeSort fnNameLe_trans fnNameLe_total _)
    · refine (List.Perm.filter (returnTypesTest rts)
        (List.mergeSort_perm (fns.filter (fnSupportedTest command option
          ignored)) fnNameLe)).trans ?_
      rw [List.filter_filter]
      have he : fns.filter
          (fun a => returnTypesTest rts a
            && fnSupportedTest command option ignored a)
          = fns.filter (codeKeepTest command option (some rts) ignored) :=
        List.filter_congr (fun x _ => by simp [codeKeepTest, Bool.and_comm])
      rw [he]

/-- C8: serializing the parsed result of durationSchema via its toJSON
override returns the original accepted input string unchanged. -/
theorem durationSchema_toJSON_roundtrip (val : String)
    (d : MomentDurationVal) (h : durationSchemaParse val = some d) :
    d.toJSON = val := by
  unfold durationSchemaParse at h
  by_cases hacc : durationRegexAccept val.data = true
  · rw [if_pos hacc] at h
    cases hfm : findMatch val.data with
    | none =>
      rw [hfm] at h
      exact absurd h (by simp)
    | some p =>
      obtain ⟨digits, u⟩ := p
      rw [hfm] at h
      simp only [Option.some.injEq] at h
      rw [← h]
  · rw [if_neg hacc] at h
    exact absurd h (by simp)

theorem durationSchema_toJSON_roundtrip_witness :
    durationSchemaParse "30m"
        = some ⟨30, 'm', "30m"⟩ ∧
      (⟨30, 'm', "30m"⟩ : MomentDurationVal).toJSON = "30m" :=
  ⟨by decide, durationSchema_toJSON_roundtrip "30m" ⟨30, 'm', "30m"⟩
    (by decide)⟩

/-- C9: the suggestion builder and the query assembler are deterministic
pure data transformations: equal inputs give equal queries and equal
suggestion lists, with no dependence on outside state (the embedding is
a pure function of the arguments alone). -/
theorem builders_deterministic (o₁ o₂ : AuthorizationsRequestOptions)
    (fs₁ fs₂ : List String) (ho : o₁ = o₂) (hf : fs₁ = fs₂) :
    buildQuery o₁ = buildQuery o₂ ∧
      buildFieldsDefinitions fs₁ = buildFieldsDefinitions fs₂ := by
  subst ho
  subst hf
  exact ⟨rfl, rfl⟩

theorem builders_deterministic_witness :
    buildQuery exOptions = buildQuery exOptions ∧
      buildFieldsDefinitions ["host.name"]
        = buildFieldsDefinitions ["host.name"] :=
  builders_deterministic exOptions exOptions ["host.name"] ["host.name"]
    rfl rfl

theorem getQuotedText_of_quoted (s : String)
    (h1 : jsStartsWith1 s '"' = true) (h2 : jsEndsWith1 s '"' = true) :
    getQuotedText s = s := by
  unfold getQuotedText
  rw [h1, h2]
  rfl

/-- C10: getQuotedText is idempotent on every string, and for every
nonempty input its result starts and ends with a double quote. -/
theorem getQuotedText_idempotent (t : String) :
    getQuotedText (getQuotedText t) = getQuotedText t ∧
      (t ≠ "" →
        jsStartsWith1 (getQuotedText t) '"' = true ∧
          jsEndsWith1 (getQuotedText t) '"' = true) :=
  ⟨getQuotedText_of_quoted (getQuotedText t) (getQuotedText_starts t)
      (getQuotedText_ends t),
    fun _ => ⟨getQuotedText_starts t, getQuotedText_ends t⟩⟩

theorem getQuotedText_idempotent_witness :
    getQuotedText (getQuotedText "a.b") = getQuotedText "a.b" ∧
      (jsStartsWith1 (getQuotedText "a.b") '"' = true ∧
        jsEndsWith1 (getQuotedText "a.b") '"' = true) :=
  ⟨(getQuotedText_idempotent "a.b").1,
    (getQuotedText_idempotent "a.b").2 (by decide)⟩

end Kibana
